import Mathlib

/-!
Shallow embedding of the currency_exchange_api repository (FastAPI service in
`src/app`).  The pure data-processing core — currency-code extraction, the
estimated-GDP derivation, the refresh payload construction, the upsert into
the relational store, the filtered/sorted listing, name lookup and deletion,
and the top-5 summary ranking — is translated into executable Lean
definitions.  Machine floats are modelled by rationals, the relational store
by a list of records (position models row identity, inserts append like
auto-increment ids), and `random.uniform(1000, 2000)` by an explicitly
injected multiplier argument.
-/

/-- A currency descriptor from the RestCountries payload: a JSON object of
which the code only reads the optional `code` field (`first.get('code')`). -/
structure CurrencyObj where
  code : Option String
deriving DecidableEq, Repr

/-- A raw country descriptor as returned by the RestCountries API
(`name, capital, region, population, flag, currencies`).  Fields other than
`name` are read with `.get`, hence optional. -/
structure CountryObj where
  name : String
  capital : Option String
  region : Option String
  population : Option Int
  flag : Option String
  currencies : Option (List CurrencyObj)
deriving DecidableEq, Repr

/-- A stored country row (`app/models.py`, class `Country`).  The surrogate
`id` column is modelled by list position. -/
structure Country where
  name : String
  capital : Option String
  region : Option String
  population : Int
  currency_code : Option String
  exchange_rate : Option ℚ
  estimated_gdp : Option ℚ
  flag_url : Option String
  last_refreshed_at : Nat
deriving DecidableEq, Repr

/-- The per-country dict appended to `payloads` in
`refresh_country_data` (`app/routers/countries.py`). -/
structure Payload where
  name : String
  capital : Option String
  region : Option String
  population : Int
  currency_code : Option String
  exchange_rate : Option ℚ
  estimated_gdp : Option ℚ
  flag_url : Option String
deriving DecidableEq, Repr

/-- Model of `utils.extract_currency_code`: `currencies = obj.get('currencies') or []`;
empty list gives `None`, otherwise `currencies[0].get('code')`. -/
def extract_currency_code (c : CountryObj) : Option String :=
  match c.currencies.getD [] with
  | [] => none
  | first :: _ => first.code

/-- Model of `utils.compute_estimated_gdp`.  The call `random.uniform(1000, 2000)` is
modelled by the injected multiplier `m`.  Python's membership test
`exchange_rate in (None, 0)` and the expression
`0 if exchange_rate is None else None` are reproduced branch for branch. -/
def compute_estimated_gdp (population : Option Int) (exchange_rate : Option ℚ)
    (m : ℚ) : Option ℚ :=
  match population with
  | none => none
  | some pop =>
    match exchange_rate with
    | none => some 0
    | some r => if r = 0 then none else some ((pop * m) / r)

/-- Dictionary lookup `rates.get(code)` on the exchange-rates mapping,
modelled as an association list. -/
def ratesGet (rates : List (String × ℚ)) (code : String) : Option ℚ :=
  (rates.find? (fun p => p.1 == code)).map (fun p => p.2)

/-- The no-currency-code branch of the loop in `refresh_country_data`:
`currency_code = None; estimated_gdp = 0`, `exchange_rate` stays `None`. -/
def payloadNoCode (c : CountryObj) : Payload :=
  { name := c.name, capital := c.capital, region := c.region,
    population := c.population.getD 0,
    currency_code := none, exchange_rate := none,
    estimated_gdp := some 0, flag_url := c.flag }

/-- The body of the `for c in countries_data` loop in
`refresh_country_data`: extract the code (Python truthiness: `None` and the
empty string both fail `if currency_code:`), look up the rate, and derive the
estimated GDP with multiplier `m`. -/
def process_country (c : CountryObj) (rates : List (String × ℚ)) (m : ℚ) :
    Payload :=
  match extract_currency_code c with
  | none => payloadNoCode c
  | some s =>
    if s.isEmpty then payloadNoCode c
    else
      match ratesGet rates s with
      | none =>
        { name := c.name, capital := c.capital, region := c.region,
          population := c.population.getD 0,
          currency_code := some s, exchange_rate := none,
          estimated_gdp := none, flag_url := c.flag }
      | some er =>
        { name := c.name, capital := c.capital, region := c.region,
          population := c.population.getD 0,
          currency_code := some s, exchange_rate := some er,
          estimated_gdp := compute_estimated_gdp c.population (some er) m,
          flag_url := c.flag }

/-- The whole payload-building loop of `refresh_country_data`; the `i`-th
country consumes the `i`-th draw of the random source `m`. -/
def build_payloads (data : List CountryObj) (rates : List (String × ℚ))
    (m : Nat → ℚ) : List Payload :=
  data.enum.map (fun ic => process_country ic.2 rates (m ic.1))

/-- Case folding as used on both sides of the comparison
`func.lower(Country.name) == name.lower()`: character-wise lowercasing. -/
def lowerStr (s : String) : String := ⟨s.data.map Char.toLower⟩

/-- Model of `crud.get_country_by_name`: first row matching
`lower(name) == name.lower()`. -/
def get_country_by_name (store : List Country) (name : String) :
    Option Country :=
  store.find? (fun c => lowerStr c.name == lowerStr name)

/-- The row written for payload `p` at refresh time `t`: every model field is
set from the dict and `last_refreshed_at = refresh_timestamp`. -/
def mkCountry (p : Payload) (t : Nat) : Country :=
  { name := p.name, capital := p.capital, region := p.region,
    population := p.population, currency_code := p.currency_code,
    exchange_rate := p.exchange_rate, estimated_gdp := p.estimated_gdp,
    flag_url := p.flag_url, last_refreshed_at := t }

/-- One iteration of `crud.upsert_countries`: case-insensitive lookup, then
overwrite every field of the first match in place, else insert a new row
(appended, like an auto-increment id). -/
def upsert_one (store : List Country) (p : Payload) (t : Nat) : List Country :=
  match store with
  | [] => [mkCountry p t]
  | c :: rest =>
    if lowerStr c.name == lowerStr p.name then mkCountry p t :: rest
    else c :: upsert_one rest p t

/-- Model of `crud.upsert_countries`: the sequential loop over the payload dicts. -/
def upsert_countries (store : List Country) (ps : List Payload) (t : Nat) :
    List Country :=
  match ps with
  | [] => store
  | p :: rest => upsert_countries (upsert_one store p t) rest t

/-- A row with its `last_refreshed_at` column cleared, used to compare all
other columns of two rows. -/
def eraseTs (c : Country) : Country := { c with last_refreshed_at := 0 }

/-- A row with its `last_refreshed_at` column replaced. -/
def retime (c : Country) (t : Nat) : Country := { c with last_refreshed_at := t }

/-- Comparator realising `ORDER BY estimated_gdp DESC NULLS LAST`
(`crud.list_countries`, sort keyword `gdp_desc`). -/
def gdpDescLe (a b : Country) : Bool :=
  match a.estimated_gdp, b.estimated_gdp with
  | some x, some y => decide (y ≤ x)
  | some _, none => true
  | none, some _ => false
  | none, none => true

/-- Comparator realising `ORDER BY name ASC` (sort keyword `name_asc`). -/
def nameAscLe (a b : Country) : Bool := a.name ≤ b.name

/-- The `if region:` truthy exact-match filter of `crud.list_countries`. -/
def filterRegion (store : List Country) (region : Option String) :
    List Country :=
  match region with
  | some r => if r.isEmpty then store else store.filter (fun c => c.region == some r)
  | none => store

/-- The `if currency:` truthy exact-match filter of `crud.list_countries`. -/
def filterCurrency (store : List Country) (currency : Option String) :
    List Country :=
  match currency with
  | some cur => if cur.isEmpty then store else store.filter (fun c => c.currency_code == some cur)
  | none => store

/-- The sort-keyword dispatch of `crud.list_countries`. -/
def applySort (q : List Country) (sort : Option String) : List Country :=
  if sort == some ("gdp_desc") then q.mergeSort gdpDescLe
  else if sort == some ("name_asc") then q.mergeSort nameAscLe
  else q

/-- Model of `crud.list_countries`: optional truthy region/currency exact-match
filters, then the recognised sort keywords. -/
def list_countries (store : List Country) (region currency sort : Option String) :
    List Country :=
  applySort (filterCurrency (filterRegion store region) currency) sort

/-- Model of `crud.delete_country`: SQL `DELETE WHERE lower(name) = lower(:name)`;
returns the remaining rows and the rowcount of deleted rows. -/
def delete_country (store : List Country) (name : String) :
    List Country × Nat :=
  ((store.filter (fun c => !(lowerStr c.name == lowerStr name))),
   (store.filter (fun c => lowerStr c.name == lowerStr name)).length)

/-- Python truthiness of the `estimated_gdp` column as used by the filter
`[c for c in countries if c.estimated_gdp]` in `generate_summary_image`:
`None`, `0` and `0.0` are all falsy. -/
def gdpTruthy : Option ℚ → Bool
  | none => false
  | some x => !(x == 0)

/-- Comparator for `sorted(..., key=lambda x: x.estimated_gdp, reverse=True)`
restricted to rows that passed the truthiness filter. -/
def gdpKeyGe (a b : Country) : Bool :=
  decide (b.estimated_gdp.getD 0 ≤ a.estimated_gdp.getD 0)

/-- The top-5 selection of `utils.generate_summary_image`: truthy-GDP rows,
sorted descending by GDP (stable, like Python's `sorted`), first five. -/
def top_countries (countries : List Country) : List Country :=
  ((countries.filter (fun c => gdpTruthy c.estimated_gdp)).mergeSort gdpKeyGe).take 5

/-- Outcome of one external HTTP fetch: parsed body, an `httpx.HTTPError`
(network / non-success status), or any other exception (e.g. an unparseable
body raising a JSON decode error). -/
inductive FetchResult (α : Type) where
  | ok (val : α)
  | httpErr (msg : String)
  | parseErr (msg : String)
deriving DecidableEq, Repr

/-- The `{error, details}` dict carried by an `HTTPException`. -/
structure ErrorBody where
  error : String
  details : String
deriving DecidableEq, Repr

/-- Body raised by the `except httpx.HTTPError` arm of `refresh_countries`. -/
def countriesHttpError (msg : String) : ErrorBody :=
  { error := "External data source unavailable",
    details := "Could not fetch data from RestCountries API: " ++ msg }

/-- Body raised by the catch-all `except Exception` arm of
`refresh_countries`. -/
def countriesGenericError : ErrorBody :=
  { error := "External data source unavailable",
    details := "Could not fetch data from RestCountries API" }

/-- Body constructed for an empty countries payload at
`routers/countries.py:140`. -/
def emptyDataError : ErrorBody :=
  { error := "External data source returned empty data",
    details := "RestCountries API returned no countries" }

/-- Body raised when fetching exchange rates fails
(`refresh_country_data`, any exception). -/
def ratesFetchError : ErrorBody :=
  { error := "External data source unavailable",
    details := "Could not fetch data from Exchange Rates API" }

/-- The `POST /countries/refresh` pipeline (`refresh_countries` together with
`refresh_country_data`), with both network fetches injected as outcomes.
Returns the resulting store and, on failure, the HTTP status and error body.
The `HTTPException` built for an empty payload inside the `try` block is
caught by the generic `except Exception` handler of the same `try`, which
replaces it with `countriesGenericError` — that masking is reproduced here.
The upsert runs only after both fetches succeeded on a non-empty payload. -/
def refresh_countries (store : List Country)
    (countriesFetch : FetchResult (List CountryObj))
    (ratesFetch : FetchResult (List (String × ℚ)))
    (m : Nat → ℚ) (t : Nat) : List Country × Option (Nat × ErrorBody) :=
  match countriesFetch with
  | .httpErr msg => (store, some (503, countriesHttpError msg))
  | .parseErr _ => (store, some (503, countriesGenericError))
  | .ok data =>
    if data.isEmpty then (store, some (503, countriesGenericError))
    else
      match ratesFetch with
      | .httpErr _ => (store, some (503, ratesFetchError))
      | .parseErr _ => (store, some (503, ratesFetchError))
      | .ok rates =>
        (upsert_countries store (build_payloads data rates m) t, none)

/-- C1: `compute_estimated_gdp` returns `none` for a null population, `0` for
a null exchange rate, `none` for a zero exchange rate, and otherwise
`population * m / exchange_rate` for the drawn multiplier `m ∈ [1000, 2000)`. -/
theorem compute_estimated_gdp_spec (pop : Int) (r m : ℚ)
    (hr : r ≠ 0) (_hm1 : 1000 ≤ m) (_hm2 : m < 2000) :
    (∀ rate m', compute_estimated_gdp none rate m' = none) ∧
    compute_estimated_gdp (some pop) none m = some 0 ∧
    compute_estimated_gdp (some pop) (some 0) m = none ∧
    compute_estimated_gdp (some pop) (some r) m = some ((pop * m) / r) := by
  refine ⟨fun rate m' => rfl, rfl, by simp [compute_estimated_gdp], ?_⟩
  simp [compute_estimated_gdp, hr]

/-- Witness for C1 at the spec's own example: population 1000000, rate 50,
multiplier 1500 give estimated GDP 30000000. -/
theorem compute_estimated_gdp_spec_witness :
    compute_estimated_gdp (some 1000000) (some 50) 1500 = some 30000000 := by
  have h := compute_estimated_gdp_spec 1000000 50 1500 (by norm_num)
    (by norm_num) (by norm_num)
  rw [h.2.2.2]
  norm_num

/-- C2: in the refresh pipeline, a country without an extractable (truthy)
currency code is stored with estimated GDP exactly `0`, while a country whose
currency code is absent from the rates mapping is stored with estimated GDP
`null` and exchange rate `null`. -/
theorem refresh_gdp_zero_vs_null (c : CountryObj) (rates : List (String × ℚ))
    (m : ℚ) (t : Nat) :
    (extract_currency_code c = none →
      (mkCountry (process_country c rates m) t).estimated_gdp = some 0) ∧
    (∀ code, extract_currency_code c = some code → code.isEmpty = false →
      ratesGet rates code = none →
      (mkCountry (process_country c rates m) t).estimated_gdp = none ∧
      (mkCountry (process_country c rates m) t).exchange_rate = none) := by
  constructor
  · intro h
    simp [process_country, h, payloadNoCode, mkCountry]
  · intro code hc hemp hr
    simp [process_country, hc, hemp, hr, mkCountry]

/-- Witness for C2: a country with no currency list stores GDP `0`; a country
with code TST and an empty rates mapping stores GDP `null` and rate `null`. -/
theorem refresh_gdp_zero_vs_null_witness :
    (mkCountry (process_country ⟨"Atlantis", none, none, some 1000, none, none⟩ [] 1500) 7).estimated_gdp = some 0 ∧
    (mkCountry (process_country ⟨"Testland", none, none, some 1000, none, some [⟨some ("TST")⟩]⟩ [] 1500) 7).estimated_gdp = none ∧
    (mkCountry (process_country ⟨"Testland", none, none, some 1000, none, some [⟨some ("TST")⟩]⟩ [] 1500) 7).exchange_rate = none := by
  refine ⟨(refresh_gdp_zero_vs_null ⟨"Atlantis", none, none, some 1000, none, none⟩ [] 1500 7).1 rfl, ?_, ?_⟩
  · exact ((refresh_gdp_zero_vs_null ⟨"Testland", none, none, some 1000, none,
      some [⟨some ("TST")⟩]⟩ [] 1500 7).2 ("TST") rfl rfl rfl).1
  · exact ((refresh_gdp_zero_vs_null ⟨"Testland", none, none, some 1000, none,
      some [⟨some ("TST")⟩]⟩ [] 1500 7).2 ("TST") rfl rfl rfl).2

/-- C10: when the currency list is non-empty but its first descriptor has no
`code` field, `extract_currency_code` still returns `null`, and such a country
takes the no-currency-code path of the pipeline: stored GDP is forced to `0`. -/
theorem extract_currency_code_missing_code_field (c : CountryObj)
    (first : CurrencyObj) (rest : List CurrencyObj)
    (rates : List (String × ℚ)) (m : ℚ) (t : Nat)
    (hc : c.currencies = some (first :: rest)) (hcode : first.code = none) :
    extract_currency_code c = none ∧
    (mkCountry (process_country c rates m) t).estimated_gdp = some 0 := by
  have he : extract_currency_code c = none := by
    simp [extract_currency_code, hc, hcode]
  exact ⟨he, by simp [process_country, he, payloadNoCode, mkCountry]⟩

/-- Witness for C10: a country listing one currency whose descriptor lacks a
code is treated as having no currency code and gets GDP `0`. -/
theorem extract_currency_code_missing_code_field_witness :
    extract_currency_code ⟨"Erewhon", none, none, some 5, none, some [⟨none⟩]⟩ = none ∧
    (mkCountry (process_country ⟨"Erewhon", none, none, some 5, none, some [⟨none⟩]⟩ [] 1500) 3).estimated_gdp = some 0 :=
  extract_currency_code_missing_code_field _ ⟨none⟩ [] [] 1500 3 rfl rfl

/-- C4: if the countries fetch fails (transport error or unparseable body),
or it yields an empty payload, or the rates fetch fails, then the refresh
reports status 503 and returns the store untouched — the upsert never runs. -/
theorem refresh_failure_leaves_store_unchanged (store : List Country)
    (rf : FetchResult (List (String × ℚ))) (m : Nat → ℚ) (t : Nat) :
    (∀ msg, refresh_countries store (.httpErr msg) rf m t =
      (store, some (503, countriesHttpError msg))) ∧
    (∀ msg, refresh_countries store (.parseErr msg) rf m t =
      (store, some (503, countriesGenericError))) ∧
    refresh_countries store (.ok []) rf m t =
      (store, some (503, countriesGenericError)) ∧
    (∀ data msg, data ≠ [] →
      refresh_countries store (.ok data) (.httpErr msg) m t =
        (store, some (503, ratesFetchError))) ∧
    (∀ data msg, data ≠ [] →
      refresh_countries store (.ok data) (.parseErr msg) m t =
        (store, some (503, ratesFetchError))) := by
  refine ⟨fun msg => rfl, fun msg => rfl, rfl, ?_, ?_⟩ <;>
    · intro data msg hne
      simp [refresh_countries, List.isEmpty_iff, hne]

/-- Witness for C4: with one pending country, a failing rates fetch yields a
503 and leaves a concrete one-row store untouched. -/
theorem refresh_failure_leaves_store_unchanged_witness :
    refresh_countries
      [mkCountry (payloadNoCode ⟨"Atlantis", none, none, some 1000, none, none⟩) 1]
      (.ok [⟨"Testland", none, none, some 1000, none, none⟩])
      (.httpErr ("timeout")) (fun _ => 1500) 2 =
    ([mkCountry (payloadNoCode ⟨"Atlantis", none, none, some 1000, none, none⟩) 1],
     some (503, ratesFetchError)) :=
  (refresh_failure_leaves_store_unchanged
      [mkCountry (payloadNoCode ⟨"Atlantis", none, none, some 1000, none, none⟩) 1]
      (.httpErr ("timeout")) (fun _ => 1500) 2).2.2.2.1
    [⟨"Testland", none, none, some 1000, none, none⟩] ("timeout") (by decide)

/-- C8 (code behaviour at the failing input): an empty countries payload is
reported with exactly the same 503 body as an unparseable countries response
— the generic `except Exception` handler catches the empty-payload
`HTTPException` and replaces it — and the distinct empty-data body built at
`routers/countries.py:140` never reaches the caller. -/
theorem empty_payload_error_equals_parse_error :
    refresh_countries [] (.ok []) (.ok []) (fun _ => 1500) 0 =
      ([], some (503, countriesGenericError)) ∧
    refresh_countries [] (.parseErr ("Expecting value")) (.ok []) (fun _ => 1500) 0 =
      ([], some (503, countriesGenericError)) ∧
    countriesGenericError ≠ emptyDataError := by
  refine ⟨rfl, rfl, by decide⟩

/-- C5: name lookup and deletion are case-insensitive.  In any store whose
case-folded names are distinct (the storage invariant the upsert maintains),
`get_country_by_name` returns a stored record exactly when the query folds to
its name, deletion removes exactly the case-insensitive matches, and a delete
count of 0 coincides with the lookup finding nothing. -/
theorem name_lookup_case_insensitive (store : List Country) (q : String)
    (r : Country) (hnd : (store.map (fun c => lowerStr c.name)).Nodup)
    (hr : r ∈ store) :
    (get_country_by_name store q = some r ↔ lowerStr q = lowerStr r.name) ∧
    (∀ c, c ∈ (delete_country store q).1 ↔
      (c ∈ store ∧ lowerStr c.name ≠ lowerStr q)) ∧
    ((delete_country store q).2 = 0 ↔ get_country_by_name store q = none) := by
  refine ⟨⟨?_, ?_⟩, ?_, ?_⟩
  · intro h
    have hp := List.find?_some h
    exact (eq_of_beq hp).symm
  · intro hq
    rcases hfind : get_country_by_name store q with _ | c
    · exfalso
      rw [get_country_by_name, List.find?_eq_none] at hfind
      refine hfind r hr ?_
      rw [hq.symm]
      exact beq_self_eq_true _
    · have hc := List.find?_some hfind
      have hmem := List.mem_of_find?_eq_some hfind
      have hcr : c = r := by
        refine List.inj_on_of_nodup_map hnd hmem hr ?_
        have h1 : lowerStr c.name = lowerStr q := by simpa using hc
        rw [h1, hq]
      rw [hcr]
  · intro c
    simp [delete_country, List.mem_filter]
  · rw [delete_country, get_country_by_name]
    simp [List.length_eq_zero, List.filter_eq_nil_iff, List.find?_eq_none]

/-- Witness for C5: after inserting "Nigeria", querying "nigeria" and
"NIGERIA" both return the very record, and deleting an absent name counts 0. -/
theorem name_lookup_case_insensitive_witness :
    get_country_by_name
      [⟨"Nigeria", none, none, 200000000, none, none, none, none, 5⟩]
      ("nigeria") =
      some ⟨"Nigeria", none, none, 200000000, none, none, none, none, 5⟩ ∧
    get_country_by_name
      [⟨"Nigeria", none, none, 200000000, none, none, none, none, 5⟩]
      ("NIGERIA") =
      some ⟨"Nigeria", none, none, 200000000, none, none, none, none, 5⟩ ∧
    (delete_country
      [⟨"Nigeria", none, none, 200000000, none, none, none, none, 5⟩]
      ("France")).2 = 0 := by
  refine ⟨?_, ?_, ?_⟩
  · exact (name_lookup_case_insensitive
      [⟨"Nigeria", none, none, 200000000, none, none, none, none, 5⟩]
      ("nigeria") ⟨"Nigeria", none, none, 200000000, none, none, none, none, 5⟩
      (by decide) (by simp)).1.mpr (by decide)
  · exact (name_lookup_case_insensitive
      [⟨"Nigeria", none, none, 200000000, none, none, none, none, 5⟩]
      ("NIGERIA") ⟨"Nigeria", none, none, 200000000, none, none, none, none, 5⟩
      (by decide) (by simp)).1.mpr (by decide)
  · exact (name_lookup_case_insensitive
      [⟨"Nigeria", none, none, 200000000, none, none, none, none, 5⟩]
      ("France") ⟨"Nigeria", none, none, 200000000, none, none, none, none, 5⟩
      (by decide) (by simp)).2.2.mpr (by decide)

/-- C6: with `sort=gdp_desc` the listing is pairwise ordered by the
`DESC NULLS LAST` comparator: no null-GDP record ever precedes a non-null
one, and non-null GDPs appear in descending order. -/
theorem list_gdp_desc_sorted (store : List Country)
    (region currency : Option String) :
    (list_countries store region currency (some ("gdp_desc"))).Pairwise
      (fun a b => gdpDescLe a b = true) := by
  have trans : ∀ a b c : Country,
      gdpDescLe a b → gdpDescLe b c → gdpDescLe a c := by
    rintro ⟨_, _, _, _, _, _, ga, _, _⟩ ⟨_, _, _, _, _, _, gb, _, _⟩
      ⟨_, _, _, _, _, _, gc, _, _⟩ hab hbc
    rcases ga with _ | x <;> rcases gb with _ | y <;> rcases gc with _ | z <;>
      simp_all [gdpDescLe]
    exact le_trans hbc hab
  have total : ∀ a b : Country, gdpDescLe a b || gdpDescLe b a := by
    rintro ⟨_, _, _, _, _, _, ga, _, _⟩ ⟨_, _, _, _, _, _, gb, _, _⟩
    rcases ga with _ | x <;> rcases gb with _ | y <;> simp [gdpDescLe]
    exact le_total y x
  have hs : list_countries store region currency (some ("gdp_desc")) =
      (filterCurrency (filterRegion store region) currency).mergeSort gdpDescLe := rfl
  rw [hs]
  exact List.sorted_mergeSort trans total _

/-- C7 counterexample: the summary ranking filter `if c.estimated_gdp` uses
Python truthiness, so a record with estimated GDP exactly `0` is excluded
from the top-5 ranking, contradicting the claim that only null-GDP records
are excluded and that a GDP of 0 participates. -/
theorem top_five_excludes_zero_gdp :
    (⟨"Zeroland", none, none, 10, none, none, some 0, none, 0⟩ : Country).estimated_gdp
      = some 0 ∧
    (⟨"Zeroland", none, none, 10, none, none, some 0, none, 0⟩ : Country) ∉
      top_countries [⟨"Zeroland", none, none, 10, none, none, some 0, none, 0⟩] := by
  refine ⟨rfl, ?_⟩
  simp [top_countries, gdpTruthy]

/-- C7 as amended: the ranking excludes exactly the records whose estimated
GDP is null **or zero** (Python falsy); among the remaining records it
returns at most five, in descending GDP order, every returned record comes
from the store, every eligible record is returned while fewer than five are
selected, and no excluded eligible record has a GDP above a selected one. -/
theorem top_five_ranking_spec (cs : List Country) :
    (∀ c ∈ top_countries cs, c ∈ cs ∧ gdpTruthy c.estimated_gdp = true) ∧
    (top_countries cs).Pairwise
      (fun a b => b.estimated_gdp.getD 0 ≤ a.estimated_gdp.getD 0) ∧
    (top_countries cs).length ≤ 5 ∧
    (∀ d ∈ cs, gdpTruthy d.estimated_gdp = true →
      (top_countries cs).length < 5 → d ∈ top_countries cs) ∧
    (∀ d ∈ cs, gdpTruthy d.estimated_gdp = true → d ∉ top_countries cs →
      ∀ c ∈ top_countries cs,
        d.estimated_gdp.getD 0 ≤ c.estimated_gdp.getD 0) := by
  have trans : ∀ a b c : Country,
      gdpKeyGe a b → gdpKeyGe b c → gdpKeyGe a c := by
    intro a b c hab hbc
    simp only [gdpKeyGe, decide_eq_true_eq] at *
    exact le_trans hbc hab
  have total : ∀ a b : Country, gdpKeyGe a b || gdpKeyGe b a := by
    intro a b
    simp only [gdpKeyGe, Bool.or_eq_true, decide_eq_true_eq]
    exact le_total _ _
  have hperm := List.mergeSort_perm
    (cs.filter (fun c => gdpTruthy c.estimated_gdp)) gdpKeyGe
  have hsorted := List.sorted_mergeSort trans total
    (cs.filter (fun c => gdpTruthy c.estimated_gdp))
  have hmemS : ∀ c, c ∈ (cs.filter (fun c => gdpTruthy c.estimated_gdp)).mergeSort gdpKeyGe ↔
      (c ∈ cs ∧ gdpTruthy c.estimated_gdp = true) := by
    intro c
    rw [hperm.mem_iff, List.mem_filter]
  refine ⟨?_, ?_, ?_, ?_, ?_⟩
  · intro c hc
    exact (hmemS c).mp (List.mem_of_mem_take hc)
  · have := List.Pairwise.sublist (List.take_sublist 5 _) hsorted
    exact this.imp (fun h => by simpa [gdpKeyGe] using h)
  · exact List.length_take_le 5 _
  · intro d hd ht hlen
    have hdS := (hmemS d).mpr ⟨hd, ht⟩
    rw [top_countries, List.length_take] at hlen
    have : ((cs.filter (fun c => gdpTruthy c.estimated_gdp)).mergeSort gdpKeyGe).length ≤ 5 := by
      omega
    rw [top_countries, List.take_of_length_le this]
    exact hdS
  · intro d hd ht hdt c hc
    have hdS := (hmemS d).mpr ⟨hd, ht⟩
    have hsplit := List.take_append_drop 5
      ((cs.filter (fun c => gdpTruthy c.estimated_gdp)).mergeSort gdpKeyGe)
    have hdrop : d ∈ ((cs.filter (fun c => gdpTruthy c.estimated_gdp)).mergeSort gdpKeyGe).drop 5 := by
      rcases (List.mem_append.mp (by rw [hsplit]; exact hdS)) with h | h
      · exact absurd h hdt
      · exact h
    have hpw := hsorted
    rw [← hsplit] at hpw
    have := (List.pairwise_append.mp hpw).2.2 c hc d hdrop
    simpa [gdpKeyGe] using this

/-- Witness for C7's amended theorem on a two-record store: the sole eligible
record is selected and satisfies the membership conjunct. -/
theorem top_five_ranking_spec_witness :
    (⟨"Richland", none, none, 10, none, none, some 7, none, 0⟩ : Country) ∈
      top_countries
        [⟨"Zeroland", none, none, 10, none, none, some 0, none, 0⟩,
         ⟨"Richland", none, none, 10, none, none, some 7, none, 0⟩] ∧
    (⟨"Richland", none, none, 10, none, none, some 7, none, 0⟩ : Country).estimated_gdp
      = some 7 := by
  have h70 : ((7 : ℚ) == 0) = false := by
    rw [beq_eq_false_iff_ne]
    norm_num
  have h00 : ((0 : ℚ) == 0) = true := by
    rw [beq_iff_eq]
  constructor
  · refine (top_five_ranking_spec
      [⟨"Zeroland", none, none, 10, none, none, some 0, none, 0⟩,
       ⟨"Richland", none, none, 10, none, none, some 7, none, 0⟩]).2.2.2.1
      ⟨"Richland", none, none, 10, none, none, some 7, none, 0⟩
      (by simp) (by simp [gdpTruthy, h70]) ?_
    simp [top_countries, gdpTruthy, List.filter, h70, h00]
  · rfl

theorem upsert_one_skip (pre rest : List Country) (p : Payload) (t : Nat)
    (h : ∀ d ∈ pre, lowerStr d.name ≠ lowerStr p.name) :
    upsert_one (pre ++ rest) p t = pre ++ upsert_one rest p t := by
  induction pre with
  | nil => rfl
  | cons d pre ih =>
    have hd : (lowerStr d.name == lowerStr p.name) = false := by
      simpa using h d (by simp)
    simp only [List.cons_append, upsert_one, hd, Bool.false_eq_true, if_false,
      List.append_eq]
    rw [ih (fun e he => h e (by simp [he]))]

theorem upsert_one_set (pre post : List Country) (c : Country) (p : Payload)
    (t : Nat) (hpre : ∀ d ∈ pre, lowerStr d.name ≠ lowerStr p.name)
    (hc : lowerStr c.name = lowerStr p.name) :
    upsert_one (pre ++ c :: post) p t = pre ++ mkCountry p t :: post := by
  rw [upsert_one_skip pre _ p t hpre]
  simp [upsert_one, hc]

theorem upsert_one_getElem? (store : List Country) (p : Payload) (t : Nat)
    (i : Nat) (c : Country) (hi : store[i]? = some c)
    (hne : lowerStr c.name ≠ lowerStr p.name) :
    (upsert_one store p t)[i]? = some c := by
  induction store generalizing i with
  | nil => simp at hi
  | cons d rest ih =>
    by_cases hd : (lowerStr d.name == lowerStr p.name) = true
    · cases i with
      | zero =>
        simp only [List.getElem?_cons_zero, Option.some.injEq] at hi
        subst hi
        exact absurd (eq_of_beq hd) hne
      | succ n =>
        simp only [List.getElem?_cons_succ] at hi
        simp [upsert_one, hd, hi]
    · have hd' : (lowerStr d.name == lowerStr p.name) = false := by
        simpa using hd
      cases i with
      | zero =>
        simp only [List.getElem?_cons_zero, Option.some.injEq] at hi
        subst hi
        simp [upsert_one, hd']
      | succ n =>
        simp only [List.getElem?_cons_succ] at hi
        simp only [upsert_one, hd', Bool.false_eq_true, if_false,
          List.getElem?_cons_succ]
        exact ih n hi

theorem upsert_countries_getElem? (ps : List Payload) (store : List Country)
    (t : Nat) (i : Nat) (c : Country) (hi : store[i]? = some c)
    (hne : ∀ p ∈ ps, lowerStr c.name ≠ lowerStr p.name) :
    (upsert_countries store ps t)[i]? = some c := by
  induction ps generalizing store with
  | nil => exact hi
  | cons p rest ih =>
    exact ih (upsert_one store p t)
      (upsert_one_getElem? store p t i c hi (hne p (by simp)))
      (fun q hq => hne q (by simp [hq]))

theorem get_by_name_fold (store : List Country) (n n' : String)
    (h : lowerStr n = lowerStr n') :
    get_country_by_name store n = get_country_by_name store n' := by
  unfold get_country_by_name
  rw [h]

theorem get_upsert_one_self (store : List Country) (p : Payload) (t : Nat) :
    get_country_by_name (upsert_one store p t) p.name = some (mkCountry p t) := by
  induction store with
  | nil => simp [upsert_one, get_country_by_name, mkCountry]
  | cons d rest ih =>
    by_cases hd : (lowerStr d.name == lowerStr p.name) = true
    · simp [upsert_one, hd, get_country_by_name, mkCountry]
    · have hd' : (lowerStr d.name == lowerStr p.name) = false := by simpa using hd
      rw [get_country_by_name] at *
      simp only [upsert_one, hd', Bool.false_eq_true, if_false]
      rw [List.find?_cons_of_neg _ (by simp [hd'])]
      exact ih

theorem get_upsert_one_other (store : List Country) (q : Payload) (t : Nat)
    (n : String) (hne : lowerStr q.name ≠ lowerStr n) :
    get_country_by_name (upsert_one store q t) n = get_country_by_name store n := by
  have hqn : (lowerStr q.name == lowerStr n) = false := by simpa using hne
  simp only [get_country_by_name]
  induction store with
  | nil => simp [upsert_one, mkCountry, hqn]
  | cons d rest ih =>
    by_cases hd : (lowerStr d.name == lowerStr q.name) = true
    · have hdn : (lowerStr d.name == lowerStr n) = false := by
        rw [eq_of_beq hd]
        exact hqn
      simp only [upsert_one, hd, if_true]
      rw [List.find?_cons_of_neg _ (by simp [hqn, mkCountry]),
        List.find?_cons_of_neg _ (by simp [hdn])]
    · have hd' : (lowerStr d.name == lowerStr q.name) = false := by simpa using hd
      simp only [upsert_one, hd', Bool.false_eq_true, if_false]
      by_cases hdn : (lowerStr d.name == lowerStr n) = true
      · rw [List.find?_cons_of_pos _ (by simp [hdn]),
          List.find?_cons_of_pos _ (by simp [hdn])]
      · have hdn' : (lowerStr d.name == lowerStr n) = false := by simpa using hdn
        rw [List.find?_cons_of_neg _ (by simp [hdn']),
          List.find?_cons_of_neg _ (by simp [hdn'])]
        exact ih

theorem get_upsert_countries_ts (ps : List Payload) (store : List Country)
    (t : Nat) (n : String) (c : Country)
    (hc : get_country_by_name store n = some c) (ht : c.last_refreshed_at = t) :
    ∃ c', get_country_by_name (upsert_countries store ps t) n = some c' ∧
      c'.last_refreshed_at = t := by
  induction ps generalizing store c with
  | nil => exact ⟨c, hc, ht⟩
  | cons q rest ih =>
    by_cases hq : lowerStr q.name = lowerStr n
    · refine ih (upsert_one store q t) (mkCountry q t) ?_ rfl
      rw [get_by_name_fold _ n q.name hq.symm]
      exact get_upsert_one_self store q t
    · refine ih (upsert_one store q t) c ?_ ht
      rw [get_upsert_one_other store q t n hq]
      exact hc

theorem get_upsert_countries_mem (ps : List Payload) (store : List Country)
    (t : Nat) :
    ∀ p ∈ ps, ∃ c,
      get_country_by_name (upsert_countries store ps t) p.name = some c ∧
      c.last_refreshed_at = t := by
  induction ps generalizing store with
  | nil =>
    intro p hp
    simp at hp
  | cons q rest ih =>
    intro p hp
    rcases List.mem_cons.mp hp with heq | hp'
    · subst heq
      exact get_upsert_countries_ts rest (upsert_one store p t) t p.name
        (mkCountry p t) (get_upsert_one_self store p t) rfl
    · exact ih (upsert_one store q t) p hp'

/-- C9: the upsert is frame-local.  A pre-existing row whose case-folded name
does not occur in the batch keeps all of its columns (its prior
`last_refreshed_at` included) at the same position, while every payload of
the batch ends up stored under its name with `last_refreshed_at` equal to the
batch's refresh timestamp. -/
theorem upsert_frame_effect (store : List Country) (ps : List Payload)
    (t : Nat) :
    (∀ (i : Nat) (c : Country), store[i]? = some c →
      lowerStr c.name ∉ ps.map (fun p => lowerStr p.name) →
      (upsert_countries store ps t)[i]? = some c) ∧
    (∀ p ∈ ps, ∃ c,
      get_country_by_name (upsert_countries store ps t) p.name = some c ∧
      c.last_refreshed_at = t) := by
  constructor
  · intro i c hi hni
    refine upsert_countries_getElem? ps store t i c hi ?_
    intro p hp h
    exact hni (h ▸ List.mem_map_of_mem _ hp)
  · exact get_upsert_countries_mem ps store t

/-- Witness for C9: upserting a Testland batch over a one-row Atlantis store
leaves the Atlantis row (timestamp 1 included) at position 0, and stores the
Testland payload with the batch timestamp 9. -/
theorem upsert_frame_effect_witness :
    (upsert_countries
      [⟨"Atlantis", none, none, 3, none, none, some 0, none, 1⟩]
      [⟨"Testland", none, none, 5, none, none, none, none⟩] 9)[0]? =
      some ⟨"Atlantis", none, none, 3, none, none, some 0, none, 1⟩ ∧
    ∃ c, get_country_by_name
        (upsert_countries
          [⟨"Atlantis", none, none, 3, none, none, some 0, none, 1⟩]
          [⟨"Testland", none, none, 5, none, none, none, none⟩] 9)
        (("Testland" : String)) = some c ∧
      c.last_refreshed_at = 9 := by
  constructor
  · exact (upsert_frame_effect
      [⟨"Atlantis", none, none, 3, none, none, some 0, none, 1⟩]
      [⟨"Testland", none, none, 5, none, none, none, none⟩] 9).1 0
      ⟨"Atlantis", none, none, 3, none, none, some 0, none, 1⟩ rfl (by decide)
  · exact (upsert_frame_effect
      [⟨"Atlantis", none, none, 3, none, none, some 0, none, 1⟩]
      [⟨"Testland", none, none, 5, none, none, none, none⟩] 9).2
      ⟨"Testland", none, none, 5, none, none, none, none⟩ (by simp)

theorem names_upsert_one (store : List Country) (p : Payload) (t : Nat) :
    (upsert_one store p t).map (fun c => lowerStr c.name) =
      store.map (fun c => lowerStr c.name) ∨
    (upsert_one store p t).map (fun c => lowerStr c.name) =
      store.map (fun c => lowerStr c.name) ++ [lowerStr p.name] := by
  induction store with
  | nil =>
    right
    simp [upsert_one, mkCountry]
  | cons d rest ih =>
    by_cases hd : (lowerStr d.name == lowerStr p.name) = true
    · left
      simp [upsert_one, hd, mkCountry, eq_of_beq hd]
    · have hd' : (lowerStr d.name == lowerStr p.name) = false := by simpa using hd
      rcases ih with h | h
      · left
        simp [upsert_one, hd', h]
      · right
        simp [upsert_one, hd', h]

theorem mem_names_upsert_one (store : List Country) (p : Payload) (t : Nat) :
    lowerStr p.name ∈ (upsert_one store p t).map (fun c => lowerStr c.name) := by
  induction store with
  | nil => simp [upsert_one, mkCountry]
  | cons d rest ih =>
    by_cases hd : (lowerStr d.name == lowerStr p.name) = true
    · simp [upsert_one, hd, mkCountry]
    · have hd' : (lowerStr d.name == lowerStr p.name) = false := by simpa using hd
      simp only [upsert_one, hd', Bool.false_eq_true, if_false, List.map_cons,
        List.mem_cons]
      exact Or.inr ih

theorem mem_names_upsert_countries (ps : List Payload) (store : List Country)
    (t : Nat) (a : String)
    (ha : a ∈ store.map (fun c => lowerStr c.name)) :
    a ∈ (upsert_countries store ps t).map (fun c => lowerStr c.name) := by
  induction ps generalizing store with
  | nil => exact ha
  | cons p rest ih =>
    refine ih (upsert_one store p t) ?_
    rcases names_upsert_one store p t with h | h <;> rw [h]
    · exact ha
    · exact List.mem_append_left _ ha

theorem first_fold_split (store : List Country) (f : String)
    (hf : f ∈ store.map (fun c => lowerStr c.name)) :
    ∃ pre c post, store = pre ++ c :: post ∧ lowerStr c.name = f ∧
      ∀ d ∈ pre, lowerStr d.name ≠ f := by
  induction store with
  | nil => simp at hf
  | cons d rest ih =>
    by_cases hd : lowerStr d.name = f
    · exact ⟨[], d, rest, rfl, hd, by simp⟩
    · have hf' : f ∈ rest.map (fun c => lowerStr c.name) := by
        obtain ⟨x, hx, hxf⟩ := List.mem_map.mp hf
        rcases List.mem_cons.mp hx with rfl | hx'
        · exact absurd hxf hd
        · exact List.mem_map.mpr ⟨x, hx', hxf⟩
      obtain ⟨pre, c, post, heq, hc, hpre⟩ := ih hf'
      refine ⟨d :: pre, c, post, by simp [heq], hc, ?_⟩
      intro e he
      rcases List.mem_cons.mp he with rfl | he'
      · exact hd
      · exact hpre e he'

theorem upsert_countries_override (rest : List Payload) :
    ∀ (pre post : List Country) (c c' : Country) (t : Nat),
    lowerStr c'.name = lowerStr c.name →
    (∀ d ∈ pre, lowerStr d.name ≠ lowerStr c.name) →
    (∃ q ∈ rest, lowerStr q.name = lowerStr c.name) →
    upsert_countries (pre ++ c' :: post) rest t =
      upsert_countries (pre ++ c :: post) rest t := by
  induction rest with
  | nil =>
    rintro pre post c c' t h1 h2 ⟨q, hq, h3⟩
    simp at hq
  | cons q rest ih =>
    rintro pre post c c' t hcc hpre ⟨q0, hq0, hq0f⟩
    simp only [upsert_countries]
    by_cases hq : lowerStr q.name = lowerStr c.name
    · rw [upsert_one_set pre post c' q t
        (fun d hd h => hpre d hd (h.trans hq))
        (hcc.trans hq.symm),
        upsert_one_set pre post c q t
        (fun d hd h => hpre d hd (h.trans hq))
        hq.symm]
    · have hq0r : q0 ∈ rest := by
        rcases List.mem_cons.mp hq0 with rfl | h
        · exact absurd hq0f hq
        · exact h
      by_cases hqpre : lowerStr q.name ∈ pre.map (fun c => lowerStr c.name)
      · obtain ⟨pa, d0, pb, hpeq, hd0, hpa⟩ := first_fold_split pre _ hqpre
        have e1 : pre ++ c' :: post = pa ++ d0 :: (pb ++ c' :: post) := by
          simp [hpeq]
        have e2 : pre ++ c :: post = pa ++ d0 :: (pb ++ c :: post) := by
          simp [hpeq]
        rw [e1, e2,
          upsert_one_set pa (pb ++ c' :: post) d0 q t
            (fun d hd h => hpa d hd h) hd0,
          upsert_one_set pa (pb ++ c :: post) d0 q t
            (fun d hd h => hpa d hd h) hd0]
        have e3 : pa ++ mkCountry q t :: (pb ++ c' :: post) =
            (pa ++ mkCountry q t :: pb) ++ c' :: post := by
          simp
        have e4 : pa ++ mkCountry q t :: (pb ++ c :: post) =
            (pa ++ mkCountry q t :: pb) ++ c :: post := by
          simp
        rw [e3, e4]
        refine ih (pa ++ mkCountry q t :: pb) post c c' t hcc ?_ ⟨q0, hq0r, hq0f⟩
        intro d hd
        rcases List.mem_append.mp hd with h | h
        · exact hpre d (by simp [hpeq, h])
        · rcases List.mem_cons.mp h with rfl | h'
          · exact hq
          · exact hpre d (by simp [hpeq, h'])
      · have hskip : ∀ (x : Country), lowerStr x.name = lowerStr c.name →
            upsert_one (pre ++ x :: post) q t = pre ++ x :: upsert_one post q t := by
          intro x hx
          have h := upsert_one_skip (pre ++ [x]) post q t ?_
          · simpa using h
          · intro d hd
            rcases List.mem_append.mp hd with h' | h'
            · intro he
              exact hqpre (he ▸ List.mem_map_of_mem _ h')
            · rcases List.mem_cons.mp h' with rfl | h''
              · rw [hx]
                intro he
                exact hq he.symm
              · simp at h''
        rw [hskip c' hcc, hskip c rfl]
        exact ih pre (upsert_one post q t) c c' t hcc hpre ⟨q0, hq0r, hq0f⟩

theorem forall2_eraseTs_upsert_one (s s' : List Country) (p : Payload)
    (t t' : Nat)
    (h : List.Forall₂ (fun a b => eraseTs a = eraseTs b) s s') :
    List.Forall₂ (fun a b => eraseTs a = eraseTs b)
      (upsert_one s p t) (upsert_one s' p t') := by
  induction h with
  | nil =>
    exact List.Forall₂.cons (by simp [eraseTs, mkCountry]) List.Forall₂.nil
  | @cons a b l1 l2 hab hrest ih =>
    have hname : a.name = b.name := by
      have h := congrArg Country.name hab
      simpa [eraseTs] using h
    by_cases hd : (lowerStr a.name == lowerStr p.name) = true
    · have hd2 : (lowerStr b.name == lowerStr p.name) = true := by
        rw [← hname]
        exact hd
      simp only [upsert_one, hd, hd2, if_true]
      exact List.Forall₂.cons (by simp [eraseTs, mkCountry]) hrest
    · have hd' : (lowerStr a.name == lowerStr p.name) = false := by simpa using hd
      have hd2 : (lowerStr b.name == lowerStr p.name) = false := by
        rw [← hname]
        exact hd'
      simp only [upsert_one, hd', hd2, Bool.false_eq_true, if_false]
      exact List.Forall₂.cons hab ih

theorem forall2_eraseTs_upsert_countries (ps : List Payload) :
    ∀ (s s' : List Country) (t t' : Nat),
    List.Forall₂ (fun a b => eraseTs a = eraseTs b) s s' →
    List.Forall₂ (fun a b => eraseTs a = eraseTs b)
      (upsert_countries s ps t) (upsert_countries s' ps t') := by
  induction ps with
  | nil =>
    intro s s' t t' h
    exact h
  | cons p rest ih =>
    intro s s' t t' h
    exact ih _ _ t t' (forall2_eraseTs_upsert_one s s' p t t' h)

theorem forall2_eraseTs_trans :
    ∀ {a b c : List Country},
    List.Forall₂ (fun x y => eraseTs x = eraseTs y) a b →
    List.Forall₂ (fun x y => eraseTs x = eraseTs y) b c →
    List.Forall₂ (fun x y => eraseTs x = eraseTs y) a c := by
  intro a b c h1
  induction h1 generalizing c with
  | nil =>
    intro h2
    cases h2
    exact List.Forall₂.nil
  | cons hab hrest ih =>
    intro h2
    cases h2 with
    | cons hbc hrest2 => exact List.Forall₂.cons (hab.trans hbc) (ih hrest2)

theorem forall2_eraseTs_retimed (pre post : List Country) (x y : Country)
    (hxy : eraseTs x = eraseTs y) :
    List.Forall₂ (fun a b => eraseTs a = eraseTs b)
      (pre ++ x :: post) (pre ++ y :: post) := by
  induction pre with
  | nil => exact List.Forall₂.cons hxy (List.forall₂_same.mpr fun c _ => rfl)
  | cons d pd ih => exact List.Forall₂.cons rfl ih

theorem get_by_name_split (store : List Country) (n : String) (c : Country)
    (h : get_country_by_name store n = some c) :
    ∃ pre post, store = pre ++ c :: post ∧
      ∀ d ∈ pre, lowerStr d.name ≠ lowerStr n := by
  induction store with
  | nil => simp [get_country_by_name] at h
  | cons d rest ih =>
    have h2 := h
    simp only [get_country_by_name, List.find?_cons] at h2
    by_cases hd : (lowerStr d.name == lowerStr n) = true
    · rw [hd] at h2
      simp only [Option.some.injEq] at h2
      exact ⟨[], rest, by simp [h2], by simp⟩
    · have hd' : (lowerStr d.name == lowerStr n) = false := by simpa using hd
      rw [hd'] at h2
      obtain ⟨pre, post, heq, hpre⟩ := ih h2
      refine ⟨d :: pre, post, by simp [heq], ?_⟩
      intro e he
      rcases List.mem_cons.mp he with rfl | he'
      · simpa using hd'
      · exact hpre e he'

theorem get_upsert_countries_other (ps : List Payload) :
    ∀ (store : List Country) (t : Nat) (n : String),
    (∀ q ∈ ps, lowerStr q.name ≠ lowerStr n) →
    get_country_by_name (upsert_countries store ps t) n =
      get_country_by_name store n := by
  induction ps with
  | nil =>
    intro store t n h
    rfl
  | cons q rest ih =>
    intro store t n h
    simp only [upsert_countries]
    rw [ih (upsert_one store q t) t n (fun r hr => h r (by simp [hr]))]
    exact get_upsert_one_other store q t n (h q (by simp))

theorem upsert_countries_double (ps : List Payload) :
    ∀ (s : List Country) (t1 t2 : Nat),
    List.Forall₂ (fun a b => eraseTs a = eraseTs b)
      (upsert_countries (upsert_countries s ps t1) ps t2)
      (upsert_countries s ps t1) := by
  induction ps with
  | nil =>
    intro s t1 t2
    exact List.forall₂_same.mpr (fun x _ => rfl)
  | cons p rest ih =>
    intro s t1 t2
    simp only [upsert_countries]
    by_cases hq : ∃ q ∈ rest, lowerStr q.name = lowerStr p.name
    · have hmem : lowerStr p.name ∈
          (upsert_countries (upsert_one s p t1) rest t1).map
            (fun c => lowerStr c.name) :=
        mem_names_upsert_countries rest (upsert_one s p t1) t1 _
          (mem_names_upsert_one s p t1)
      obtain ⟨pre, c, post, heq, hc, hpre⟩ :=
        first_fold_split (upsert_countries (upsert_one s p t1) rest t1) _ hmem
      have h1 : upsert_one (upsert_countries (upsert_one s p t1) rest t1) p t2 =
          pre ++ mkCountry p t2 :: post := by
        rw [heq]
        exact upsert_one_set pre post c p t2 hpre hc
      have hov : upsert_countries
          (upsert_one (upsert_countries (upsert_one s p t1) rest t1) p t2)
          rest t2 =
          upsert_countries (upsert_countries (upsert_one s p t1) rest t1)
            rest t2 := by
        rw [h1, heq]
        refine upsert_countries_override rest pre post c (mkCountry p t2) t2
          hc.symm (fun d hd h => hpre d hd (h.trans hc)) ?_
        obtain ⟨q, hqr, hqf⟩ := hq
        exact ⟨q, hqr, hqf.trans hc.symm⟩
      rw [hov]
      exact ih (upsert_one s p t1) t1 t2
    · push_neg at hq
      have hget : get_country_by_name
          (upsert_countries (upsert_one s p t1) rest t1) p.name =
          some (mkCountry p t1) := by
        rw [get_upsert_countries_other rest (upsert_one s p t1) t1 p.name hq]
        exact get_upsert_one_self s p t1
      obtain ⟨pre, post, heq, hpre⟩ := get_by_name_split _ _ _ hget
      have h1 : upsert_one (upsert_countries (upsert_one s p t1) rest t1) p t2 =
          pre ++ mkCountry p t2 :: post := by
        rw [heq]
        exact upsert_one_set pre post (mkCountry p t1) p t2 hpre rfl
      have hcong := forall2_eraseTs_upsert_countries rest
        (pre ++ mkCountry p t2 :: post) (pre ++ mkCountry p t1 :: post) t2 t2
        (forall2_eraseTs_retimed pre post _ _ (by simp [eraseTs, mkCountry]))
      rw [h1, heq]
      refine forall2_eraseTs_trans hcong ?_
      rw [← heq]
      exact ih (upsert_one s p t1) t1 t2

theorem upsert_one_ts_cases (store : List Country) (p : Payload) (t : Nat) :
    ∀ (i : Nat) (c' : Country), (upsert_one store p t)[i]? = some c' →
    store[i]? = some c' ∨ c'.last_refreshed_at = t := by
  induction store with
  | nil =>
    intro i c' h
    cases i with
    | zero =>
      right
      simp only [upsert_one, List.getElem?_cons_zero, Option.some.injEq] at h
      rw [← h]
      rfl
    | succ n => simp [upsert_one] at h
  | cons d rest ih =>
    intro i c' h
    by_cases hd : (lowerStr d.name == lowerStr p.name) = true
    · simp only [upsert_one, hd, if_true] at h
      cases i with
      | zero =>
        right
        simp only [List.getElem?_cons_zero, Option.some.injEq] at h
        rw [← h]
        rfl
      | succ n =>
        left
        simpa using h
    · have hd' : (lowerStr d.name == lowerStr p.name) = false := by simpa using hd
      simp only [upsert_one, hd', Bool.false_eq_true, if_false] at h
      cases i with
      | zero =>
        left
        simpa using h
      | succ n =>
        rcases ih n c' (by simpa using h) with h1 | h1
        · left
          simpa using h1
        · right
          exact h1

theorem upsert_countries_ts_cases (ps : List Payload) :
    ∀ (store : List Country) (t : Nat) (i : Nat) (c' : Country),
    (upsert_countries store ps t)[i]? = some c' →
    store[i]? = some c' ∨ c'.last_refreshed_at = t := by
  induction ps with
  | nil =>
    intro store t i c' h
    left
    exact h
  | cons p rest ih =>
    intro store t i c' h
    rcases ih (upsert_one store p t) t i c' h with h1 | h1
    · exact upsert_one_ts_cases store p t i c' h1
    · right
      exact h1

theorem forall2_getElem? {R : Country → Country → Prop}
    {l l' : List Country} (h : List.Forall₂ R l l') :
    ∀ (i : Nat) (c c' : Country), l[i]? = some c → l'[i]? = some c' → R c c' := by
  induction h with
  | nil =>
    intro i c c' h1 h2
    simp at h1
  | cons hab hrest ih =>
    intro i c c' h1 h2
    cases i with
    | zero =>
      simp only [List.getElem?_cons_zero, Option.some.injEq] at h1 h2
      rw [← h1, ← h2]
      exact hab
    | succ n => exact ih n c c' (by simpa using h1) (by simpa using h2)

theorem eraseTs_eq_retime {a b : Country} (h : eraseTs a = eraseTs b) :
    a = retime b a.last_refreshed_at := by
  cases a
  cases b
  simp only [eraseTs, retime, Country.mk.injEq] at *
  simp_all

/-- C3 counterexample: running the refresh upsert twice over the identical
upstream batch (same country, same rates) does not leave estimated GDP
unchanged — the multiplier is drawn afresh, so the second run stores a
different estimated GDP (30000000 instead of 20000000), not merely a new
`last_refreshed_at`. -/
theorem refresh_twice_changes_estimated_gdp :
    ((upsert_countries
        (upsert_countries []
          (build_payloads
            [⟨"Testland", none, none, some 1000000, none, some [⟨some ("TST")⟩]⟩]
            [(("TST"), 50)] (fun _ => 1000)) 1)
        (build_payloads
          [⟨"Testland", none, none, some 1000000, none, some [⟨some ("TST")⟩]⟩]
          [(("TST"), 50)] (fun _ => 1500)) 2).map
      (fun c => c.estimated_gdp)) = [some 30000000] ∧
    ((upsert_countries []
        (build_payloads
          [⟨"Testland", none, none, some 1000000, none, some [⟨some ("TST")⟩]⟩]
          [(("TST"), 50)] (fun _ => 1000)) 1).map
      (fun c => c.estimated_gdp)) = [some 20000000] ∧
    some (30000000 : ℚ) ≠ some (20000000 : ℚ) := by
  have hp1 : build_payloads
      [⟨"Testland", none, none, some 1000000, none, some [⟨some ("TST")⟩]⟩]
      [(("TST"), 50)] (fun _ => 1000) =
      [⟨"Testland", none, none, 1000000, some ("TST"), some 50,
        some 20000000, none⟩] := by
    simp [build_payloads, process_country, extract_currency_code, ratesGet,
      compute_estimated_gdp, show (("TST" : String)).isEmpty = false from rfl]
    norm_num
  have hp2 : build_payloads
      [⟨"Testland", none, none, some 1000000, none, some [⟨some ("TST")⟩]⟩]
      [(("TST"), 50)] (fun _ => 1500) =
      [⟨"Testland", none, none, 1000000, some ("TST"), some 50,
        some 30000000, none⟩] := by
    simp [build_payloads, process_country, extract_currency_code, ratesGet,
      compute_estimated_gdp, show (("TST" : String)).isEmpty = false from rfl]
    norm_num
  rw [hp1, hp2]
  refine ⟨rfl, rfl, by norm_num⟩

/-- C3 as amended: with the random multiplier source pinned (the same draws
injected into both runs), re-running the refresh upsert on the identical
upstream batch keeps the record count, changes each stored row at most in its
`last_refreshed_at` (set to the second run's timestamp), and leaves rows
whose folded name is not in the batch entirely unchanged. -/
theorem refresh_twice_pinned_multiplier_idempotent (store : List Country)
    (data : List CountryObj) (rates : List (String × ℚ)) (m : Nat → ℚ)
    (t1 t2 : Nat) :
    (upsert_countries
        (upsert_countries store (build_payloads data rates m) t1)
        (build_payloads data rates m) t2).length =
      (upsert_countries store (build_payloads data rates m) t1).length ∧
    (∀ (i : Nat) (c c' : Country),
      (upsert_countries store (build_payloads data rates m) t1)[i]? = some c →
      (upsert_countries
        (upsert_countries store (build_payloads data rates m) t1)
        (build_payloads data rates m) t2)[i]? = some c' →
      c' = c ∨ c' = retime c t2) ∧
    (∀ (i : Nat) (c : Country),
      (upsert_countries store (build_payloads data rates m) t1)[i]? = some c →
      lowerStr c.name ∉
        (build_payloads data rates m).map (fun p => lowerStr p.name) →
      (upsert_countries
        (upsert_countries store (build_payloads data rates m) t1)
        (build_payloads data rates m) t2)[i]? = some c) := by
  have hdouble := upsert_countries_double (build_payloads data rates m)
    store t1 t2
  refine ⟨hdouble.length_eq, ?_, ?_⟩
  · intro i c c' h1 h2
    have herase : eraseTs c' = eraseTs c := forall2_getElem? hdouble i c' c h2 h1
    rcases upsert_countries_ts_cases (build_payloads data rates m) _ t2 i c' h2
      with hts | hts
    · left
      rw [h1] at hts
      exact (Option.some.inj hts).symm
    · right
      rw [← hts]
      exact eraseTs_eq_retime herase
  · intro i c h1 hni
    refine upsert_countries_getElem? (build_payloads data rates m) _ t2 i c h1 ?_
    intro p hp h
    exact hni (h ▸ List.mem_map_of_mem _ hp)

/-- Witness for C3's amended theorem: a no-currency country re-upserted with
the same pinned multiplier yields at position 0 either the very first-run row
or that row retimed to the second timestamp. -/
theorem refresh_twice_pinned_multiplier_idempotent_witness :
    mkCountry (payloadNoCode ⟨"Testland", none, none, some 1000, none, none⟩) 2 =
      mkCountry (payloadNoCode ⟨"Testland", none, none, some 1000, none, none⟩) 1 ∨
    mkCountry (payloadNoCode ⟨"Testland", none, none, some 1000, none, none⟩) 2 =
      retime (mkCountry (payloadNoCode ⟨"Testland", none, none, some 1000, none, none⟩) 1) 2 :=
  (refresh_twice_pinned_multiplier_idempotent []
    [⟨"Testland", none, none, some 1000, none, none⟩] [] (fun _ => 1500) 1 2).2.1
    0 (mkCountry (payloadNoCode ⟨"Testland", none, none, some 1000, none, none⟩) 1)
    (mkCountry (payloadNoCode ⟨"Testland", none, none, some 1000, none, none⟩) 2)
    rfl rfl

example : compute_estimated_gdp (some 1000000) (some 50) 1500 = some 30000000 := by
  simp [compute_estimated_gdp]
  norm_num

example : compute_estimated_gdp (some 5) none 1500 = some 0 := by
  simp [compute_estimated_gdp]

example : compute_estimated_gdp (some 5) (some 0) 1500 = none := by
  simp [compute_estimated_gdp]

example : compute_estimated_gdp none (some 3) 1500 = none := by
  simp [compute_estimated_gdp]
